import Mathlib

/-!
# LMDB-editor: verification of the spec claims against the source

Shallow embedding of the three core pieces of the repository:

* the escape codec used by `EscapedEntry` and the row renderer
  (`src/escaped_entry.rs`; the codec itself is the external `stfu8` crate,
  so it is modelled from the spec, section 4.2);
* the transaction lifecycle manager (`src/txn.rs` and the begin-write
  handler in `src/main.rs`);
* the windowed row renderer (`TreeBehavior::pane_ui` in `src/main.rs`).

Byte sequences are `List Nat` with every element `< 256`; text is a
`List Nat` of Unicode code points.
-/

namespace LmdbEditor

/-- Byte sequences (each element is a byte value, `< 256` where it matters). -/
abbrev Bytes := List Nat

/-- Text as a list of Unicode code points (the model of a Rust `String`). -/
abbrev Text := List Nat

/-! ## Escape codec

Modelled from the spec: the `stfu8` crate is an external dependency whose
source is not part of this repository; sections 4.2 and 8 of the spec fix
its contract.  `encode_u8` renders printable ASCII bytes literally, escapes
the backslash, tab/newline/carriage-return get the named escapes
`\\`, `\t`, `\n`, `\r`, and every other byte value becomes a hex escape
`\xHH`.  The pretty variant `encode_u8_pretty` keeps tab and newline as
literal layout characters instead of escaping them.  `decode_u8` parses the
escapes back to exact bytes and fails with a `DecodeError` on a truncated
escape, invalid hex digits, an unknown escape character, or an escape
denoting a code point with no single-byte mapping. -/

/-- Decode failure cases, modelled from the spec (section 4.2). -/
inductive DecodeError where
  | truncated
  | invalidHex
  | invalidEscape
  | unmappable
deriving DecidableEq, Repr

/-- Modelled from the spec: hex digit rendering used by the `\xHH` escapes. -/
def hexDigit (d : Nat) : Nat :=
  if d < 10 then 48 + d else 97 + (d - 10)

/-- Modelled from the spec: hex digit parsing (accepts both letter cases). -/
def hexVal (c : Nat) : Option Nat :=
  if 48 ≤ c ∧ c ≤ 57 then some (c - 48)
  else if 97 ≤ c ∧ c ≤ 102 then some (c - 97 + 10)
  else if 65 ≤ c ∧ c ≤ 70 then some (c - 65 + 10)
  else none

/-- Prepend a decoded byte to the result of decoding the remaining text. -/
def consByte (b : Nat) : Except DecodeError Bytes → Except DecodeError Bytes
  | .ok bs => .ok (b :: bs)
  | .error e => .error e

/-- Modelled from the spec: one step of `stfu8::decode_u8` — consume one
literal character or one escape sequence from the front of the text and
produce the byte it denotes, the end of the text, or a `DecodeError`.
Code points are mapped one-to-one to single bytes, so only values `≤ 127`
pass through literally and an escaped value above `255` is unmappable. -/
def decodeStep : Text → Except DecodeError (Option (Nat × Text))
  | [] => .ok none
  | c :: rest =>
    if c = 92 then
      match rest with
      | [] => .error .truncated
      | e :: rs =>
        if e = 92 then .ok (some (92, rs))
        else if e = 116 then .ok (some (9, rs))
        else if e = 110 then .ok (some (10, rs))
        else if e = 114 then .ok (some (13, rs))
        else if e = 120 then
          match rs with
          | h1 :: h2 :: rs2 =>
            match hexVal h1, hexVal h2 with
            | some d1, some d2 => .ok (some (16 * d1 + d2, rs2))
            | _, _ => .error .invalidHex
          | _ => .error .truncated
        else if e = 117 then
          match rs with
          | x1 :: x2 :: x3 :: x4 :: x5 :: x6 :: rs2 =>
            match hexVal x1, hexVal x2, hexVal x3, hexVal x4, hexVal x5, hexVal x6 with
            | some d1, some d2, some d3, some d4, some d5, some d6 =>
              let v := 16 * (16 * (16 * (16 * (16 * d1 + d2) + d3) + d4) + d5) + d6
              if v ≤ 255 then .ok (some (v, rs2)) else .error .unmappable
            | _, _, _, _, _, _ => .error .invalidHex
          | _ => .error .truncated
        else .error .invalidEscape
    else if c ≤ 127 then .ok (some (c, rest))
    else .error .unmappable

theorem decodeStep_length {l : Text} {b : Nat} {l' : Text}
    (h : decodeStep l = .ok (some (b, l'))) : l'.length < l.length := by
  match l with
  | [] => simp [decodeStep] at h
  | c :: rest =>
    simp only [decodeStep] at h
    split at h
    · split at h
      · exact absurd h (by simp)
      · split at h
        · simp_all; omega
        · split at h
          · simp_all; omega
          · split at h
            · simp_all; omega
            · split at h
              · simp_all; omega
              · split at h
                · split at h
                  · split at h
                    · simp_all; omega
                    · exact absurd h (by simp)
                  · exact absurd h (by simp)
                · split at h
                  · split at h
                    · split at h
                      · split at h
                        · simp_all; omega
                        · exact absurd h (by simp)
                      · exact absurd h (by simp)
                    · exact absurd h (by simp)
                  · exact absurd h (by simp)
    · split at h
      · simp_all
      · exact absurd h (by simp)

/-- Fuel-indexed decode loop: `decodeStep` consumes at least one character
per produced byte, so any fuel of at least the text's length gives the
total decode.  Structural recursion on the fuel keeps the function
kernel-evaluable. -/
def decodeAux (fuel : Nat) (l : Text) : Except DecodeError Bytes :=
  match decodeStep l with
  | .ok none => .ok []
  | .error e => .error e
  | .ok (some (b, l')) =>
    match fuel with
    | 0 => .error .truncated
    | f + 1 => consByte b (decodeAux f l')

/-- Modelled from the spec: `stfu8::decode_u8`, parsing escape sequences
back to exact bytes; any malformed escape yields a `DecodeError`, never
partial data. -/
def decode_u8 (l : Text) : Except DecodeError Bytes :=
  decodeAux l.length l

theorem decodeAux_fuel_irrelevant :
    ∀ f1 : Nat, ∀ l : Text, ∀ f2 : Nat, l.length ≤ f1 → l.length ≤ f2 →
      decodeAux f1 l = decodeAux f2 l := by
  intro f1
  induction f1 with
  | zero =>
    intro l f2 h1 _
    have : l = [] := List.length_eq_zero.mp (Nat.le_zero.mp h1)
    subst this
    cases f2 <;> rfl
  | succ f ih =>
    intro l f2 h1 h2
    rw [decodeAux, decodeAux]
    cases hs : decodeStep l with
    | error e => rfl
    | ok o =>
      cases o with
      | none => rfl
      | some p =>
        obtain ⟨b, l'⟩ := p
        have hlt : l'.length < l.length := decodeStep_length hs
        have hne : 1 ≤ l.length := by omega
        cases f2 with
        | zero => omega
        | succ f2' =>
          have := ih l' f2' (by omega) (by omega)
          simp [this]

theorem decode_u8_of_step_some {l : Text} {b : Nat} {l' : Text}
    (h : decodeStep l = .ok (some (b, l'))) :
    decode_u8 l = consByte b (decode_u8 l') := by
  have hlt : l'.length < l.length := decodeStep_length h
  have h1 : l.length = (l.length - 1) + 1 := by omega
  rw [decode_u8, decode_u8, h1, decodeAux, h]
  show consByte b (decodeAux (l.length - 1) l') = _
  exact congrArg (consByte b)
    (decodeAux_fuel_irrelevant (l.length - 1) l' l'.length (by omega) (by omega))

/-- Modelled from the spec: how `stfu8::encode_u8` renders one byte. -/
def encodeByte (b : Nat) : Text :=
  if b = 92 then [92, 92]
  else if b = 9 then [92, 116]
  else if b = 10 then [92, 110]
  else if b = 13 then [92, 114]
  else if 32 ≤ b ∧ b ≤ 126 then [b]
  else [92, 120, hexDigit (b / 16), hexDigit (b % 16)]

/-- Modelled from the spec: the pretty variant keeps tab and newline as
literal layout characters; everything else is rendered as in `encodeByte`. -/
def encodeBytePretty (b : Nat) : Text :=
  if b = 9 then [9]
  else if b = 10 then [10]
  else encodeByte b

/-- Modelled from the spec: `stfu8::encode_u8`. -/
def encode_u8 : Bytes → Text
  | [] => []
  | b :: bs => encodeByte b ++ encode_u8 bs

/-- Modelled from the spec: `stfu8::encode_u8_pretty`. -/
def encode_u8_pretty : Bytes → Text
  | [] => []
  | b :: bs => encodeBytePretty b ++ encode_u8_pretty bs

theorem hexVal_hexDigit (d : Nat) (hd : d < 16) : hexVal (hexDigit d) = some d := by
  interval_cases d <;> decide

theorem decodeStep_encodeByte (b : Nat) (hb : b < 256) (rest : Text) :
    decodeStep (encodeByte b ++ rest) = .ok (some (b, rest)) := by
  by_cases h92 : b = 92
  · subst h92; simp [encodeByte, decodeStep]
  by_cases h9 : b = 9
  · subst h9; simp [encodeByte, decodeStep]
  by_cases h10 : b = 10
  · subst h10; simp [encodeByte, decodeStep]
  by_cases h13 : b = 13
  · subst h13; simp [encodeByte, decodeStep]
  by_cases hpr : 32 ≤ b ∧ b ≤ 126
  · have hb7 : b ≤ 127 := by omega
    simp [encodeByte, h92, h9, h10, h13, hpr, decodeStep, hb7]
  · have hdiv : b / 16 < 16 := by omega
    have hmod : b % 16 < 16 := Nat.mod_lt _ (by omega)
    have hdm : 16 * (b / 16) + b % 16 = b := by omega
    simp [encodeByte, h92, h9, h10, h13, hpr, decodeStep,
      hexVal_hexDigit _ hdiv, hexVal_hexDigit _ hmod, hdm]

theorem decodeStep_encodeBytePretty (b : Nat) (hb : b < 256) (rest : Text) :
    decodeStep (encodeBytePretty b ++ rest) = .ok (some (b, rest)) := by
  by_cases h9 : b = 9
  · subst h9; simp [encodeBytePretty, decodeStep]
  by_cases h10 : b = 10
  · subst h10; simp [encodeBytePretty, decodeStep]
  · simp only [encodeBytePretty, h9, h10, if_false]
    exact decodeStep_encodeByte b hb rest

/-- Claim C2: for every byte sequence `b` (empty, single bytes 0-255,
embedded NUL, arbitrary non-UTF-8 byte values), decoding the encoded text
recovers exactly `b`, for both the plain and the pretty encoder. -/
theorem decode_encode_roundtrip (bs : Bytes) (hb : ∀ b ∈ bs, b < 256) :
    decode_u8 (encode_u8 bs) = .ok bs ∧
      decode_u8 (encode_u8_pretty bs) = .ok bs := by
  induction bs with
  | nil => exact ⟨rfl, rfl⟩
  | cons b bs ih =>
    have hbb : b < 256 := hb b (by simp)
    have hrest : ∀ x ∈ bs, x < 256 := fun x hx => hb x (by simp [hx])
    obtain ⟨ih1, ih2⟩ := ih hrest
    constructor
    · show decode_u8 (encodeByte b ++ encode_u8 bs) = _
      rw [decode_u8_of_step_some (decodeStep_encodeByte b hbb _), ih1]; rfl
    · show decode_u8 (encodeBytePretty b ++ encode_u8_pretty bs) = _
      rw [decode_u8_of_step_some (decodeStep_encodeBytePretty b hbb _), ih2]; rfl

/-- Witness for C2: the round trip evaluated on a concrete byte sequence
containing a NUL byte, a printable byte, a backslash, a newline and a
non-UTF-8 byte value. -/
theorem decode_encode_roundtrip_witness :
    (∀ b ∈ ([0, 97, 92, 10, 255, 9] : Bytes), b < 256) ∧
      decode_u8 (encode_u8 [0, 97, 92, 10, 255, 9]) = .ok [0, 97, 92, 10, 255, 9] ∧
      decode_u8 (encode_u8_pretty [0, 97, 92, 10, 255, 9]) = .ok [0, 97, 92, 10, 255, 9] :=
  ⟨by decide, (decode_encode_roundtrip [0, 97, 92, 10, 255, 9] (by decide)).1,
    (decode_encode_roundtrip [0, 97, 92, 10, 255, 9] (by decide)).2⟩

/-! ## Store and the transaction manager (`src/txn.rs`, `src/main.rs`)

The LMDB environment is abstracted as its committed contents: an
association list from keys to values, newest binding first (`put`
overwrites by shadowing, `get` reads the newest binding, `delete` removes
all bindings of the key).  A read-only transaction holds the snapshot it
was opened on; a read-write transaction holds its current view (snapshot
plus its own uncommitted writes), exactly the view `main.rs` reads rows
from by dereferencing the `RwTxn`. -/

abbrev Store := List (Bytes × Bytes)

/-- Read a key in a store (newest binding wins). -/
def Store.get : Store → Bytes → Option Bytes
  | [], _ => none
  | (k', v) :: s, k => if k' = k then some v else Store.get s k

/-- `Database::put` through a write transaction's view. -/
def Store.put (s : Store) (k v : Bytes) : Store := (k, v) :: s

/-- `Database::delete` through a write transaction's view. -/
def Store.del (s : Store) (k : Bytes) : Store := s.filter (fun e => e.1 != k)

/-- `Txn` from `src/txn.rs`: a read-only transaction holding its snapshot,
a read-write transaction holding its view, or the transient `None`. -/
inductive Txn where
  | Ro (snapshot : Store)
  | Rw (view : Store)
  | None
deriving DecidableEq

/-- `Txn::end_rw` (`src/txn.rs:39-59`): for `Ro` do nothing; for `Rw`,
first run `f` — which commits or aborts the write transaction, producing
the resulting committed store from the old committed store and the write
transaction's view — and only then open the fresh read transaction on the
store `f` produced.  The source's `unreachable!()` arm for `None` is kept
as the identity on the transient state. -/
def Txn.end_rw (t : Txn) (env : Store) (f : Store → Store → Store) : Store × Txn :=
  match t with
  | .Ro s => (env, .Ro s)
  | .None => (env, .None)
  | .Rw view =>
    let env1 := f env view
    (env1, .Ro env1)

/-- `Txn::commit` (`src/txn.rs:18-21`): `end_rw` with `wtxn.commit()`,
which publishes the write transaction's view as the committed store. -/
def Txn.commit (t : Txn) (env : Store) : Store × Txn :=
  t.end_rw env (fun _ view => view)

/-- `Txn::abort` (`src/txn.rs:23-26`): `end_rw` with `wtxn.abort()`,
which leaves the committed store untouched. -/
def Txn.abort (t : Txn) (env : Store) : Store × Txn :=
  t.end_rw env (fun env _ => env)

/-- `Txn::refresh` (`src/txn.rs:28-37`): for `Ro`, drop the old read
transaction and open a new one on the current committed store; otherwise
do nothing. -/
def Txn.refresh (t : Txn) (env : Store) : Store × Txn :=
  match t with
  | .Ro _ => (env, .Ro env)
  | t => (env, t)

/-- The begin-write handler (`src/main.rs:88-91`): when the button is
clicked in the `Ro` state, open a write transaction on the committed store
and replace the manager's transaction with it; otherwise do nothing. -/
def beginWrite (t : Txn) (env : Store) : Txn :=
  match t with
  | .Ro _ => .Rw env
  | t => t

/-- Claim C3: committing from the ReadWrite state publishes the write
transaction's view as the committed store before the fresh read snapshot
is opened, so the resulting state is ReadOnly on exactly the post-commit
store, every entry of the write transaction's view is visible in that
snapshot, and the manager is never left without an active transaction. -/
theorem commit_fresh_snapshot (env view : Store) (k v : Bytes)
    (h : Store.get view k = some v) :
    (Txn.commit (.Rw view) env).2 ≠ .None ∧
      (Txn.commit (.Rw view) env).2 = .Ro (Txn.commit (.Rw view) env).1 ∧
      Store.get (Txn.commit (.Rw view) env).1 k = some v := by
  refine ⟨by simp [Txn.commit, Txn.end_rw], by simp [Txn.commit, Txn.end_rw], ?_⟩
  simpa [Txn.commit, Txn.end_rw] using h

/-- Witness for C3 at a concrete store: a freshly written entry is in the
snapshot opened by the commit. -/
theorem commit_fresh_snapshot_witness :
    Store.get (Store.put [] [1] [2]) [1] = some [2] ∧
      (Txn.commit (.Rw (Store.put [] [1] [2])) []).2 ≠ .None ∧
      (Txn.commit (.Rw (Store.put [] [1] [2])) []).2 =
        .Ro (Txn.commit (.Rw (Store.put [] [1] [2])) []).1 ∧
      Store.get (Txn.commit (.Rw (Store.put [] [1] [2])) []).1 [1] = some [2] :=
  ⟨by decide, commit_fresh_snapshot [] (Store.put [] [1] [2]) [1] [2] (by decide)⟩

/-- Claim C4: aborting from the ReadWrite state discards every effect of
the write transaction — a key that is absent from the committed store is
absent from the snapshot the manager ends up on, whatever the write
transaction's view contained — and the manager becomes ReadOnly on that
unchanged store; aborting from the ReadOnly state is a no-op. -/
theorem abort_discards_writes :
    (∀ env view : Store, ∀ k : Bytes, Store.get env k = none →
        (Txn.abort (.Rw view) env).1 = env ∧
        (Txn.abort (.Rw view) env).2 = .Ro env ∧
        Store.get (Txn.abort (.Rw view) env).1 k = none) ∧
    (∀ env s : Store, Txn.abort (.Ro s) env = (env, .Ro s)) := by
  constructor
  · intro env view k h
    refine ⟨by simp [Txn.abort, Txn.end_rw], by simp [Txn.abort, Txn.end_rw], ?_⟩
    simpa [Txn.abort, Txn.end_rw] using h
  · intro env s
    simp [Txn.abort, Txn.end_rw]

/-- Witness for C4: abort of a write transaction that had put an entry the
committed store does not have leaves the entry unreadable afterwards. -/
theorem abort_discards_writes_witness :
    Store.get [] [1] = none ∧
      (Txn.abort (.Rw (Store.put [] [1] [2])) []).1 = [] ∧
      (Txn.abort (.Rw (Store.put [] [1] [2])) []).2 = .Ro [] ∧
      Store.get (Txn.abort (.Rw (Store.put [] [1] [2])) []).1 [1] = none :=
  ⟨by decide, abort_discards_writes.1 [] (Store.put [] [1] [2]) [1] (by decide)⟩

/-- Claim C9: refreshing a ReadOnly transaction replaces its snapshot with
the current committed store, so any entry committed elsewhere since the
old snapshot becomes visible; refreshing in the ReadWrite state changes
nothing — same state, same handle, same pending writes. -/
theorem refresh_behavior :
    (∀ env s : Store, Txn.refresh (.Ro s) env = (env, .Ro env)) ∧
    (∀ env s : Store, ∀ k v : Bytes, Store.get env k = some v →
        ∃ snap, (Txn.refresh (.Ro s) env).2 = .Ro snap ∧ Store.get snap k = some v) ∧
    (∀ env view : Store, Txn.refresh (.Rw view) env = (env, .Rw view)) := by
  refine ⟨fun env s => rfl, fun env s k v h => ⟨env, rfl, h⟩, fun env view => rfl⟩

/-- Witness for C9: an entry committed after the old snapshot was taken is
visible through the snapshot `refresh` installs. -/
theorem refresh_behavior_witness :
    Store.get (Store.put [] [3] [4]) [3] = some [4] ∧
      ∃ snap, (Txn.refresh (.Ro []) (Store.put [] [3] [4])).2 = .Ro snap ∧
        Store.get snap [3] = some [4] :=
  ⟨by decide, refresh_behavior.2.1 (Store.put [] [3] [4]) [] [3] [4] (by decide)⟩

/-! ## Transaction handle lifecycle (claim C1)

Each public transition of the manager is flattened into the ordered list
of handle constructions and destructions its code performs:

* begin write (`src/main.rs:88-91`): `let wtxn = env.write_txn().unwrap();`
  constructs the write handle while `self.txn` still holds the read handle;
  the following assignment `self.txn = txn::Txn::Rw(wtxn)` destroys the old
  read handle only afterwards.
* commit / abort (`src/txn.rs:39-59`): `end_rw` first moves the write
  handle out with `mem::replace` and destroys it via `f` (commit or
  abort), and only then constructs the new read handle.
* refresh (`src/txn.rs:28-37`): drops the old read handle, then constructs
  the new one. -/

/-- The two kinds of engine transaction handle. -/
inductive Handle where
  | ro
  | rw
deriving DecidableEq

/-- A handle lifecycle event. -/
inductive HandleEv where
  | create (h : Handle)
  | destroy (h : Handle)
deriving DecidableEq

/-- Event order of the begin-write handler, `src/main.rs:88-91`. -/
def beginWriteEvents : List HandleEv := [.create .rw, .destroy .ro]

/-- Event order of `Txn::commit` via `end_rw`, `src/txn.rs:39-59`. -/
def commitEvents : List HandleEv := [.destroy .rw, .create .ro]

/-- Event order of `Txn::abort` via `end_rw`, `src/txn.rs:39-59`. -/
def abortEvents : List HandleEv := [.destroy .rw, .create .ro]

/-- Event order of `Txn::refresh`, `src/txn.rs:28-37`. -/
def refreshEvents : List HandleEv := [.destroy .ro, .create .ro]

/-- Largest number of simultaneously live handles reached at any point
while an event list runs, starting from `alive` live handles. -/
def maxAlive (alive : Nat) : List HandleEv → Nat
  | [] => alive
  | e :: es =>
    let next := match e with
      | .create _ => alive + 1
      | .destroy _ => alive - 1
    max alive (maxAlive next es)

/-- Claim C1, evaluated at the failing transition: starting from the one
live handle the manager always holds, the begin-write transition reaches
two simultaneously live handles (the write handle is constructed before
the read handle is destroyed), while commit, abort and refresh never
exceed one — so the claimed invariant fails exactly at begin write, which
contradicts the discipline documented at `src/txn.rs:31-32`. -/
theorem txn_begin_write_two_handles :
    maxAlive 1 beginWriteEvents = 2 ∧ maxAlive 1 commitEvents = 1 ∧
      maxAlive 1 abortEvents = 1 ∧ maxAlive 1 refreshEvents = 1 := by
  decide

/-! ## Engine-level failures (claim C5)

Every engine call in the source is followed by `.unwrap()`
(`env.write_txn().unwrap()` in `src/main.rs:89`, `wtxn.commit().unwrap()`
in `src/txn.rs:20`, `env.read_txn().unwrap()` in `src/txn.rs:35` and
`src/txn.rs:52`), so an engine error aborts via panic instead of being
returned.  `RunResult` makes the panic explicit and records the
manager-visible state at the moment the panic fires. -/

/-- Outcome of running a handler whose source unwraps fallible engine
calls: either a normal result, or a panic carrying the state the manager
holds at the moment the unwrap fails. -/
inductive RunResult (α : Type) where
  | ok (a : α)
  | panic (a : α)
deriving DecidableEq

/-- The begin-write handler with a fallible `env.write_txn()`
(`src/main.rs:88-91`): when the call errs, the `.unwrap()` panics while
`self.txn` still holds the old read transaction. -/
def beginWriteF (t : Txn) (env : Store) (writeTxnFails : Bool) : RunResult Txn :=
  match t with
  | .Ro s => if writeTxnFails then .panic (.Ro s) else .ok (.Rw env)
  | t => .ok t

/-- `Txn::end_rw` with fallible engine calls (`src/txn.rs:39-59`): after
`mem::replace` the manager holds `None`; if `f` (the commit) errs, its
unwrap panics there; if `env.read_txn()` errs, its unwrap panics there
too, after the commit already took effect.  The `unreachable!()` arm for
`None` is a panic as well. -/
def Txn.end_rwF (t : Txn) (env : Store) (f : Store → Store → Store)
    (fFails readTxnFails : Bool) : RunResult (Store × Txn) :=
  match t with
  | .Ro s => .ok (env, .Ro s)
  | .None => .panic (env, .None)
  | .Rw view =>
    if fFails then .panic (env, .None)
    else
      let env1 := f env view
      if readTxnFails then .panic (env1, .None)
      else .ok (env1, .Ro env1)

/-- `Txn::commit` with fallible engine calls. -/
def Txn.commitF (t : Txn) (env : Store) (commitFails readTxnFails : Bool) :
    RunResult (Store × Txn) :=
  t.end_rwF env (fun _ view => view) commitFails readTxnFails

/-- `Txn::refresh` with a fallible `env.read_txn()` (`src/txn.rs:28-37`):
the old read transaction is dropped first, so a failing reopen panics
while the manager holds `None`. -/
def Txn.refreshF (t : Txn) (env : Store) (readTxnFails : Bool) :
    RunResult (Store × Txn) :=
  match t with
  | .Ro _ => if readTxnFails then .panic (env, .None) else .ok (env, .Ro env)
  | t => .ok (env, t)

/-- Counterexample to claim C5 at concrete inputs: an engine error during
begin-write panics instead of surfacing the error, and an engine error
while reopening the read transaction inside commit panics with the
manager stuck in the transient `None` state after the commit already took
effect — the failed transition neither surfaces nor leaves the manager in
a state where the transition did not occur. -/
theorem engine_failure_panics :
    beginWriteF (.Ro []) [] true = .panic (.Ro []) ∧
      Txn.commitF (.Rw [([1], [2])]) [] false true =
        .panic ([([1], [2])], .None) := by
  exact ⟨rfl, rfl⟩

/-- Claim C5 as amended: every engine-level failure of a begin, commit or
refresh call panics (program abort) rather than returning the error; a
failed begin-write panics with the manager state unchanged, a failed
commit call panics with the manager in the transient `None` state, a
failure of the read-transaction reopen inside commit panics in `None`
with the commit already published, and a failed reopen inside refresh
panics in `None`. -/
theorem engine_failure_behavior :
    (∀ s env : Store, beginWriteF (.Ro s) env true = .panic (.Ro s)) ∧
    (∀ view env : Store, Txn.commitF (.Rw view) env true false = .panic (env, .None)) ∧
    (∀ view env : Store, Txn.commitF (.Rw view) env false true = .panic (view, .None)) ∧
    (∀ s env : Store, Txn.refreshF (.Ro s) env true = .panic (env, .None)) := by
  exact ⟨fun s env => rfl, fun view env => rfl, fun view env => rfl, fun s env => rfl⟩

/-! ## EscapedEntry and the put/delete handlers (`src/escaped_entry.rs`,
`src/main.rs:210-225`) -/

/-- `EscapedEntry` (`src/escaped_entry.rs`): the in-progress escaped key
and data text of the entry editor. -/
structure EscapedEntry where
  key : Text
  data : Text
deriving DecidableEq

/-- `EscapedEntry::clear`: empty both texts. -/
def EscapedEntry.clear (_ : EscapedEntry) : EscapedEntry := ⟨[], []⟩

/-- `EscapedEntry::decoded_key`: decode the key text. -/
def EscapedEntry.decoded_key (e : EscapedEntry) : Except DecodeError Bytes :=
  decode_u8 e.key

/-- `EscapedEntry::decoded_data`: decode the data text. -/
def EscapedEntry.decoded_data (e : EscapedEntry) : Except DecodeError Bytes :=
  decode_u8 e.data

/-- The insert button handler (`src/main.rs:210-217`): only under a
read-write transaction it decodes key and data — unwrapping, so a decode
error panics with everything still unchanged — puts the entry into the
database through the write transaction and clears the editor entry;
under any other transaction nothing at all happens. -/
def insertClicked (t : Txn) (entry : EscapedEntry) : RunResult (Txn × EscapedEntry) :=
  match t with
  | .Rw view =>
    match entry.decoded_key with
    | .error _ => .panic (.Rw view, entry)
    | .ok k =>
      match entry.decoded_data with
      | .error _ => .panic (.Rw view, entry)
      | .ok d => .ok (.Rw (view.put k d), entry.clear)
  | t => .ok (t, entry)

/-- The delete button handler (`src/main.rs:219-225`): only under a
read-write transaction it decodes the key — unwrapping — deletes it from
the database through the write transaction and clears the editor entry;
under any other transaction nothing at all happens. -/
def deleteClicked (t : Txn) (entry : EscapedEntry) : RunResult (Txn × EscapedEntry) :=
  match t with
  | .Rw view =>
    match entry.decoded_key with
    | .error _ => .panic (.Rw view, entry)
    | .ok k => .ok (.Rw (view.del k), entry.clear)
  | t => .ok (t, entry)

/-- Claim C10: a put or delete issued while the manager holds a ReadOnly
transaction is silently ignored — no mutation happens, no error or panic
is reported, and the editor entry keeps its key and data text — and the
entry is cleared exactly by a put or delete that runs under a ReadWrite
transaction. -/
theorem readonly_put_delete_noop :
    (∀ s : Store, ∀ e : EscapedEntry, insertClicked (.Ro s) e = .ok (.Ro s, e)) ∧
    (∀ s : Store, ∀ e : EscapedEntry, deleteClicked (.Ro s) e = .ok (.Ro s, e)) ∧
    (∀ view : Store, ∀ e : EscapedEntry, ∀ k d : Bytes,
        e.decoded_key = .ok k → e.decoded_data = .ok d →
        insertClicked (.Rw view) e = .ok (.Rw (view.put k d), e.clear)) ∧
    (∀ view : Store, ∀ e : EscapedEntry, ∀ k : Bytes,
        e.decoded_key = .ok k →
        deleteClicked (.Rw view) e = .ok (.Rw (view.del k), e.clear)) := by
  refine ⟨fun s e => rfl, fun s e => rfl, ?_, ?_⟩
  · intro view e k d hk hd
    simp [insertClicked, hk, hd]
  · intro view e k hk
    simp [deleteClicked, hk]

/-- Witness for C10: insert and delete evaluated on a ReadOnly state and,
for the clearing part, on a ReadWrite state with decodable text. -/
theorem readonly_put_delete_noop_witness :
    insertClicked (.Ro [([5], [6])]) ⟨[97], [98]⟩ = .ok (.Ro [([5], [6])], ⟨[97], [98]⟩) ∧
      deleteClicked (.Ro [([5], [6])]) ⟨[97], [98]⟩ = .ok (.Ro [([5], [6])], ⟨[97], [98]⟩) ∧
      EscapedEntry.decoded_key ⟨[97], [98]⟩ = .ok [97] ∧
      EscapedEntry.decoded_data ⟨[97], [98]⟩ = .ok [98] ∧
      insertClicked (.Rw []) ⟨[97], [98]⟩ =
        .ok (.Rw (Store.put [] [97] [98]), EscapedEntry.clear ⟨[97], [98]⟩) :=
  ⟨readonly_put_delete_noop.1 [([5], [6])] ⟨[97], [98]⟩,
    readonly_put_delete_noop.2.1 [([5], [6])] ⟨[97], [98]⟩,
    rfl, rfl,
    readonly_put_delete_noop.2.2.1 [] ⟨[97], [98]⟩ [97] [98] rfl rfl⟩

theorem decode_u8_of_step_error {l : Text} {err : DecodeError}
    (h : decodeStep l = .error err) : decode_u8 l = .error err := by
  rw [decode_u8, decodeAux, h]

/-- Counterexample to claim C6 at a concrete input: with a write
transaction open, clicking insert with the truncated escape text `"\"` as
the key panics (the handler unwraps the decode result) instead of
reporting a `DecodeError`. -/
theorem insert_malformed_panics :
    insertClicked (.Rw []) ⟨[92], []⟩ = .panic (.Rw [], ⟨[92], []⟩) := rfl

/-- Claim C6 as amended: for malformed escape text — a truncated escape, a
hex escape with invalid digits, or a unicode escape denoting a code point
with no single-byte mapping — `decoded_key`/`decoded_data` return a
`DecodeError` and never partial data, and the entry text is untouched;
but when the decode happens inside the put or delete handler, the
handler's unwrap turns that error into a panic — with the editor entry
still holding its text at the panic. -/
theorem decode_error_handling :
    decode_u8 [92] = .error .truncated ∧
    decode_u8 [92, 120, 48] = .error .truncated ∧
    (∀ h1 h2 : Nat, ∀ rs : Text, hexVal h1 = none →
        decode_u8 (92 :: 120 :: h1 :: h2 :: rs) = .error .invalidHex) ∧
    decode_u8 [92, 117, 48, 49, 48, 50, 48, 48] = .error .unmappable ∧
    (∀ view : Store, ∀ e : EscapedEntry, ∀ err : DecodeError,
        e.decoded_key = .error err →
        insertClicked (.Rw view) e = .panic (.Rw view, e)) ∧
    (∀ view : Store, ∀ e : EscapedEntry, ∀ err : DecodeError,
        e.decoded_key = .error err →
        deleteClicked (.Rw view) e = .panic (.Rw view, e)) := by
  refine ⟨rfl, rfl, ?_, rfl, ?_, ?_⟩
  · intro h1 h2 rs hh
    apply decode_u8_of_step_error
    simp [decodeStep, hh]
  · intro view e err hk
    simp [insertClicked, hk]
  · intro view e err hk
    simp [deleteClicked, hk]

/-- Witness for C6 as amended: the hex-digit error case evaluated at a
concrete invalid digit, and the handler panic evaluated at a concrete
malformed entry. -/
theorem decode_error_handling_witness :
    hexVal 103 = none ∧
      decode_u8 [92, 120, 103, 48] = .error .invalidHex ∧
      EscapedEntry.decoded_key ⟨[92, 120], [97]⟩ = .error .truncated ∧
      deleteClicked (.Rw [([7], [8])]) ⟨[92, 120], [97]⟩ =
        .panic (.Rw [([7], [8])], ⟨[92, 120], [97]⟩) :=
  ⟨by decide, decode_error_handling.2.2.1 103 48 [] (by decide), rfl,
    decode_error_handling.2.2.2.2.2 [([7], [8])] ⟨[92, 120], [97]⟩ .truncated rfl⟩

/-! ## Windowed row rendering (`TreeBehavior::pane_ui`, `src/main.rs:239-291`)

One call of `pane_ui` builds `num_rows = database.len(rtxn)`, a fresh
`prev_row_index = None` and a fresh `iter = database.iter(rtxn)`, then
hands `body.rows` a closure that the table widget invokes once per visible
row index, consecutively over the visible window
`[start, start+len) ∩ [0, num_rows)`.  The closure asserts the indices are
consecutive, skips `row_index` entries on the first invocation
(`iter.by_ref().take(row_index).for_each(drop)`), records the index and
renders the entry produced by `iter.next()`.  The iterator is
instrumented with a count of its `next` calls (the skip consumes `next`
calls through the `take` adapter). -/

/-- A table row: raw key and value bytes. -/
abbrev Entry := Bytes × Bytes

/-- The forward cursor over a table, instrumented with how often `next`
was called on it. -/
structure IterState where
  remaining : List Entry
  nextCalls : Nat
deriving DecidableEq

/-- One `iter.next()` call. -/
def iterNext (it : IterState) : Option Entry × IterState :=
  match it.remaining with
  | [] => (none, ⟨[], it.nextCalls + 1⟩)
  | e :: rest => (some e, ⟨rest, it.nextCalls + 1⟩)

/-- `iter.by_ref().take(n).for_each(drop)`: consume up to `n` entries; the
`take` adapter stops early after the call on which the inner iterator is
exhausted. -/
def skipTake (it : IterState) : Nat → IterState
  | 0 => it
  | n + 1 =>
    match iterNext it with
    | (none, it') => it'
    | (some _, it') => skipTake it' n

/-- The per-frame mutable state of the row rendering closure:
`prev_row_index`, the iterator, the rows that received content, and
whether the consecutiveness assertion held on every invocation so far. -/
structure RowsState where
  prev_row_index : Option Nat
  iter : IterState
  rendered : List Entry
  assertOk : Bool
deriving DecidableEq

/-- The `body.rows` closure (`src/main.rs:259-289`) for one row index. -/
def rowClosure (st : RowsState) (row_index : Nat) : RowsState :=
  let ok := st.assertOk &&
    (match st.prev_row_index with
      | none => true
      | some p => p + 1 == row_index)
  let it0 :=
    match st.prev_row_index with
    | none => skipTake st.iter row_index
    | some _ => st.iter
  match iterNext it0 with
  | (some e, it1) => ⟨some row_index, it1, st.rendered ++ [e], ok⟩
  | (none, it1) => ⟨some row_index, it1, st.rendered, ok⟩

/-- The state `pane_ui` sets up freshly on every call:
`prev_row_index = None`, a new iterator, nothing rendered. -/
def initRows (entries : List Entry) : RowsState := ⟨none, ⟨entries, 0⟩, [], true⟩

/-- One windowed render: the widget invokes the closure for the
consecutive visible row indices `start, …, min (start+len) num_rows - 1`. -/
def renderWindow (entries : List Entry) (start len : Nat) : RowsState :=
  (List.range' start (min (start + len) entries.length - start)).foldl
    rowClosure (initRows entries)

theorem skipTake_of_le :
    ∀ n : Nat, ∀ l : List Entry, ∀ c : Nat, n ≤ l.length →
      skipTake ⟨l, c⟩ n = ⟨l.drop n, c + n⟩ := by
  intro n
  induction n with
  | zero => intro l c _; simp [skipTake]
  | succ n ih =>
    intro l c h
    cases l with
    | nil => simp at h
    | cons e rest =>
      have : skipTake ⟨rest, c + 1⟩ n = ⟨rest.drop n, c + 1 + n⟩ :=
        ih rest (c + 1) (by simpa using h)
      simp [skipTake, iterNext, this]
      omega

theorem rows_foldl_steady :
    ∀ cnt p : Nat, ∀ l : List Entry, ∀ c : Nat, ∀ r : List Entry, ∀ ok : Bool,
      (List.range' (p + 1) cnt).foldl rowClosure ⟨some p, ⟨l, c⟩, r, ok⟩ =
        ⟨some (p + cnt), ⟨l.drop cnt, c + cnt⟩, r ++ l.take cnt, ok⟩ := by
  intro cnt
  induction cnt with
  | zero => intro p l c r ok; simp
  | succ cnt ih =>
    intro p l c r ok
    have hr : List.range' (p + 1) (cnt + 1) = (p + 1) :: List.range' (p + 2) cnt := rfl
    rw [hr, List.foldl_cons]
    cases l with
    | nil =>
      have hc : rowClosure ⟨some p, ⟨[], c⟩, r, ok⟩ (p + 1) =
          ⟨some (p + 1), ⟨[], c + 1⟩, r, ok⟩ := by
        simp [rowClosure, iterNext]
      rw [hc]
      have := ih (p + 1) [] (c + 1) r ok
      simp only [List.drop_nil, List.take_nil, List.append_nil] at this ⊢
      rw [show p + 2 = (p + 1) + 1 from rfl, this]
      have e1 : p + 1 + cnt = p + (cnt + 1) := by omega
      have e2 : c + 1 + cnt = c + (cnt + 1) := by omega
      rw [e1, e2]
    | cons e rest =>
      have hc : rowClosure ⟨some p, ⟨e :: rest, c⟩, r, ok⟩ (p + 1) =
          ⟨some (p + 1), ⟨rest, c + 1⟩, r ++ [e], ok⟩ := by
        simp [rowClosure, iterNext]
      rw [hc]
      have := ih (p + 1) rest (c + 1) (r ++ [e]) ok
      rw [show p + 2 = (p + 1) + 1 from rfl, this]
      simp only [List.drop_succ_cons, List.take_succ_cons, List.append_assoc,
        List.singleton_append]
      have e1 : p + 1 + cnt = p + (cnt + 1) := by omega
      have e2 : c + 1 + cnt = c + (cnt + 1) := by omega
      rw [e1, e2]

theorem take_min_length (l : List Entry) (a : Nat) :
    l.take (min a l.length) = l.take a := by
  rcases Nat.le_total a l.length with h | h
  · rw [Nat.min_eq_left h]
  · rw [Nat.min_eq_right h, List.take_of_length_le h, List.take_length]

theorem renderWindow_eq (entries : List Entry) (start len : Nat) :
    (renderWindow entries start len).rendered = (entries.drop start).take len ∧
      (0 < len → start + len ≤ entries.length →
        (renderWindow entries start len).iter.nextCalls = start + len) := by
  rcases hcnt : min (start + len) entries.length - start with _ | m
  · constructor
    · have hrw : renderWindow entries start len = initRows entries := by
        rw [renderWindow, hcnt]; rfl
      rw [hrw]
      show [] = (entries.drop start).take len
      rcases Nat.eq_zero_or_pos len with hl | hl
      · rw [hl, List.take_zero]
      · have hse : entries.length ≤ start := by omega
        rw [List.drop_eq_nil_of_le hse, List.take_nil]
    · intro hlen hle
      exfalso
      omega
  · have hstart : start < entries.length := by omega
    have hsk : skipTake ⟨entries, 0⟩ start = ⟨entries.drop start, start⟩ := by
      have := skipTake_of_le start entries 0 (by omega)
      simpa using this
    rcases hds : entries.drop start with _ | ⟨e, rest⟩
    · exfalso
      have := List.length_drop start entries
      rw [hds] at this
      simp at this
      omega
    have hrw : renderWindow entries start len =
        ⟨some (start + m), ⟨rest.drop m, start + 1 + m⟩, e :: rest.take m, true⟩ := by
      rw [renderWindow, hcnt]
      have hr1 : List.range' start (m + 1) = start :: List.range' (start + 1) m := rfl
      rw [hr1, List.foldl_cons]
      have hc : rowClosure (initRows entries) start =
          ⟨some start, ⟨rest, start + 1⟩, [e], true⟩ := by
        simp [rowClosure, initRows, hsk, hds, iterNext]
      rw [hc, rows_foldl_steady m start rest (start + 1) [e] true]
      simp
    constructor
    · rw [hrw]
      show e :: rest.take m = (e :: rest).take len
      have hlen' : (e :: rest).length = entries.length - start := by
        rw [← hds, List.length_drop]
      have hm : m + 1 = min len (e :: rest).length := by rw [hlen']; omega
      calc e :: rest.take m = (e :: rest).take (m + 1) := rfl
        _ = (e :: rest).take (min len (e :: rest).length) := by rw [hm]
        _ = (e :: rest).take len := take_min_length _ _
    · intro hlen hle
      rw [hrw]
      show start + 1 + m = start + len
      omega

/-- Claim C7: a cold windowed read of `[start, start+len)` renders exactly
the entries at ordinal positions `start … min (start+len) n - 1` of the
key-ordered table — the contiguous slice `(entries.drop start).take len`,
in table order, so any ordering of the table's entries is preserved — and
a window starting at or beyond the table's size renders nothing rather
than failing. -/
theorem cold_window_rows (entries : List Entry) (start len : Nat) :
    (renderWindow entries start len).rendered = (entries.drop start).take len ∧
      (entries.length ≤ start → (renderWindow entries start len).rendered = []) ∧
      (∀ R : Entry → Entry → Prop, entries.Pairwise R →
        (renderWindow entries start len).rendered.Pairwise R) := by
  obtain ⟨h1, _⟩ := renderWindow_eq entries start len
  refine ⟨h1, ?_, ?_⟩
  · intro hle
    rw [h1, List.drop_eq_nil_of_le hle, List.take_nil]
  · intro R hp
    rw [h1]
    exact hp.sublist ((List.take_sublist _ _).trans (List.drop_sublist _ _))

/-- Witness for C7: the window `[5, 8)` of a 10-entry table renders
exactly the entries at ordinals 5, 6 and 7, a window past the end renders
nothing, and strict key ordering is preserved. -/
theorem cold_window_rows_witness :
    (renderWindow ((List.range 10).map (fun i => ([i], [i]))) 5 3).rendered =
        [([5], [5]), ([6], [6]), ([7], [7])] ∧
      ((List.range 10).map (fun i : Nat => (([i], [i]) : Entry))).length ≤ 12 ∧
      (renderWindow ((List.range 10).map (fun i => ([i], [i]))) 12 3).rendered = [] ∧
      (renderWindow ((List.range 10).map (fun i => ([i], [i]))) 5 3).rendered.Pairwise
        (fun a b : Entry => a.1 ≠ b.1) :=
  ⟨(cold_window_rows ((List.range 10).map (fun i => ([i], [i]))) 5 3).1.trans (by decide),
    by decide,
    (cold_window_rows ((List.range 10).map (fun i => ([i], [i]))) 12 3).2.1 (by decide),
    (cold_window_rows ((List.range 10).map (fun i => ([i], [i]))) 5 3).2.2
      (fun a b : Entry => a.1 ≠ b.1) (by decide)⟩

/-- Counterexample to claim C8 at a concrete input: on a 20-entry table,
the sequential window requests `[0,10)` then `[10,20)` are two `pane_ui`
calls, each of which builds a fresh iterator (`src/main.rs:240-241`); the
second request advances the iterator 20 times — 10 skip steps from the
table's start plus 10 row reads — for only 10 rows consumed, so the cost
is `start + len`, not the claimed once-per-row-consumed. -/
theorem window_rescan_counts :
    (renderWindow ((List.range 20).map (fun i => ([i], [i]))) 0 10).iter.nextCalls = 10 ∧
      (renderWindow ((List.range 20).map (fun i => ([i], [i]))) 10 10).iter.nextCalls = 20 ∧
      (renderWindow ((List.range 20).map (fun i => ([i], [i]))) 10 10).rendered.length = 10 := by
  refine ⟨by decide, by decide, by decide⟩

/-- Claim C8 as amended: within a single windowed render the iterator is
advanced once per visible row after an initial skip of `start` entries;
a new window request starts over with a fresh iterator, so every request
— sequential or not — costs `start + len` iterator advances for `len`
rows consumed, proportional to `start`, not only to the rows consumed. -/
theorem window_advance_cost (entries : List Entry) (start len : Nat)
    (hpos : 0 < len) (hle : start + len ≤ entries.length) :
    (renderWindow entries start len).iter.nextCalls = start + len ∧
      (renderWindow entries start len).rendered.length = len := by
  obtain ⟨h1, h2⟩ := renderWindow_eq entries start len
  refine ⟨h2 hpos hle, ?_⟩
  rw [h1, List.length_take, List.length_drop]
  omega

/-- Witness for C8 as amended: the request `[10, 10)` on a 20-entry table
costs 20 advances for its 10 rows. -/
theorem window_advance_cost_witness :
    (0 : Nat) < 10 ∧ 10 + 10 ≤ ((List.range 20).map (fun i : Nat => (([i], [i]) : Entry))).length ∧
      (renderWindow ((List.range 20).map (fun i => ([i], [i]))) 10 10).iter.nextCalls = 10 + 10 ∧
      (renderWindow ((List.range 20).map (fun i => ([i], [i]))) 10 10).rendered.length = 10 :=
  ⟨by decide, by decide,
    (window_advance_cost ((List.range 20).map (fun i => ([i], [i]))) 10 10
      (by decide) (by decide)).1,
    (window_advance_cost ((List.range 20).map (fun i => ([i], [i]))) 10 10
      (by decide) (by decide)).2⟩

end LmdbEditor
